import Mathlib

/-!
Verification development for the `canadian-historical-weather-radar`
downloader (`src/main.rs`).  The program enumerates each calendar day in a
configured range, for each day the hours 0..22, builds a remote URL and a
local file name for each timestamp, filters out names already present in the
destination directory, and fetches the remaining items, writing non-empty
response bodies to disk.

The shallow embedding below mirrors the source:
* numbers are formatted the way Rust's `format!("{:02}", n)` and chrono's
  `%Y`/`%m`/`%d` specifiers print them (decimal digits, left-padded with
  zeros; chrono prints years of five or more digits with a leading plus);
* dates are (year, month, day) triples; `Date.nextDay` models
  `dt + Duration::days(1)` on valid Gregorian dates and `Date.le` models
  chrono's calendar order, so the `while dt <= end_date` loop becomes
  `enumDays`;
* the filesystem is the pair (directory exists, list of file names);
* the HTTP world is an oracle mapping each URL to the call outcome, and the
  per-item local failure knobs (directory create, file create, write);
* `expect`-induced panics are modelled by the `ProcOutcome.panicked`
  outcome, which aborts the remaining run, exactly as a propagating panic
  does in `main`.
-/

/-! ### Decimal formatting, as printed by Rust / chrono -/

/-- Numeric value of a decimal digit character (`'0'` ↦ 0, …, `'9'` ↦ 9). -/
def charVal (c : Char) : Nat := c.toNat - 48

/-- Big-endian decimal digits of a positive number; the first argument is
fuel (taking fuel = n is always sufficient). -/
def natDigitsAux : Nat → Nat → List Char
  | 0, _ => []
  | _ + 1, 0 => []
  | f + 1, n + 1 => natDigitsAux f ((n + 1) / 10) ++ [Nat.digitChar ((n + 1) % 10)]

/-- Big-endian decimal digit characters of `n`, as Rust's `Display` for
integers prints them (`0` prints as `"0"`). -/
def natDigits (n : Nat) : List Char :=
  if n = 0 then ['0'] else natDigitsAux n n

/-- Left-pad a character list with `'0'` up to width `w`. -/
def zeroPad (w : Nat) (l : List Char) : List Char :=
  List.replicate (w - l.length) '0' ++ l

/-- The string `format!("{:02}", n)` produces, and likewise chrono's
zero-padded-to-2 `%m`/`%d`/`%H` numeric fields. -/
def fmt02 (n : Nat) : String := ⟨zeroPad 2 (natDigits n)⟩

/-- The string chrono's `%Y` produces: the year zero-padded to 4 digits;
years of five or more digits are printed with a leading `'+'`. -/
def fmtY (y : Nat) : String :=
  if 10000 ≤ y then "+" ++ String.mk (natDigits y) else ⟨zeroPad 4 (natDigits y)⟩

/-- Value of a big-endian decimal digit string. -/
def digitsVal (l : List Char) : Nat :=
  l.foldl (fun a c => 10 * a + charVal c) 0

/-! ### Calendar dates (chrono `Date<Utc>`, built with `Utc.ymd`) -/

structure Date where
  y : Nat
  m : Nat
  d : Nat
deriving DecidableEq, Repr

/-- Gregorian leap-year rule. -/
def isLeap (y : Nat) : Bool :=
  y % 4 = 0 && (y % 100 ≠ 0 || y % 400 = 0)

/-- Number of days of month `m` of year `y` (0 for an invalid month). -/
def daysInMonth (y m : Nat) : Nat :=
  if m = 2 then (if isLeap y then 29 else 28)
  else if m = 4 ∨ m = 6 ∨ m = 9 ∨ m = 11 then 30
  else if 1 ≤ m ∧ m ≤ 12 then 31
  else 0

/-- A (year, month, day) triple that `Utc.ymd` accepts. -/
def Date.valid (a : Date) : Prop :=
  1 ≤ a.m ∧ a.m ≤ 12 ∧ 1 ≤ a.d ∧ a.d ≤ daysInMonth a.y a.m

instance (a : Date) : Decidable a.valid := by
  unfold Date.valid; infer_instance

/-- Calendar order on dates (chrono's `Ord`), lexicographic on (y, m, d). -/
def Date.le (a b : Date) : Prop :=
  a.y < b.y ∨ (a.y = b.y ∧ (a.m < b.m ∨ (a.m = b.m ∧ a.d ≤ b.d)))

/-- Strict calendar order on dates. -/
def Date.lt (a b : Date) : Prop :=
  a.y < b.y ∨ (a.y = b.y ∧ (a.m < b.m ∨ (a.m = b.m ∧ a.d < b.d)))

instance (a b : Date) : Decidable (Date.le a b) := by
  unfold Date.le; infer_instance

instance (a b : Date) : Decidable (Date.lt a b) := by
  unfold Date.lt; infer_instance

/-- The calendar successor: `dt + Duration::days(1)` on a valid date. -/
def Date.nextDay (a : Date) : Date :=
  if a.d < daysInMonth a.y a.m then ⟨a.y, a.m, a.d + 1⟩
  else if a.m < 12 then ⟨a.y, a.m + 1, 1⟩
  else ⟨a.y + 1, 1, 1⟩

/-- Fuel bound for the day-enumeration loop: strictly decreases along
`Date.nextDay` while `Date.le a b` holds. -/
def loopFuel (a b : Date) : Nat :=
  (b.y + 1 - a.y) * 500 + (13 - a.m) * 35 + (32 - min a.d 32)

/-- Day enumeration with explicit fuel (structural recursion, so that the
kernel can evaluate it on concrete inputs). -/
def enumDaysFuel : Nat → Date → Date → List Date
  | 0, _, _ => []
  | f + 1, a, b => if Date.le a b then a :: enumDaysFuel f (Date.nextDay a) b else []

/-- The `while dt <= end_date { ...; dt = dt + Duration::days(1) }` loop of
`main`: every day from `a` to `b` inclusive. -/
def enumDays (a b : Date) : List Date :=
  enumDaysFuel (loopFuel a b) a b

/-- One day's worth of timestamps: the `for hour in 0 .. 23` loop. -/
def hoursOf (dt : Date) : List (Date × Nat) :=
  (List.range 23).map (fun h => (dt, h))

/-- The full timestamp enumeration (TimeRangeEnumerator): day-major,
hour-minor. -/
def timestamps (a b : Date) : List (Date × Nat) :=
  (enumDays a b).flatMap hoursOf

/-- Strict (day, hour) order on timestamps. -/
def tsLt (x y : Date × Nat) : Prop :=
  Date.lt x.1 y.1 ∨ (x.1 = y.1 ∧ x.2 < y.2)

/-! ### Basic facts about the date order and the loop -/

theorem daysInMonth_le (y m : Nat) : daysInMonth y m ≤ 31 := by
  unfold daysInMonth
  repeat' split
  all_goals omega

theorem daysInMonth_pos (y m : Nat) (h1 : 1 ≤ m) (h2 : m ≤ 12) :
    1 ≤ daysInMonth y m := by
  unfold daysInMonth
  repeat' split
  all_goals omega

theorem Date.le_y {a b : Date} (h : Date.le a b) : a.y ≤ b.y := by
  unfold Date.le at h; omega

theorem Date.le_refl (a : Date) : Date.le a a := by
  unfold Date.le; omega

theorem Date.le_trans {a b c : Date} (h1 : Date.le a b) (h2 : Date.le b c) :
    Date.le a c := by
  unfold Date.le at *; omega

theorem Date.lt_of_lt_of_le {a b c : Date} (h1 : Date.lt a b) (h2 : Date.le b c) :
    Date.lt a c := by
  unfold Date.lt Date.le at *; omega

theorem Date.le_of_lt {a b : Date} (h : Date.lt a b) : Date.le a b := by
  unfold Date.lt Date.le at *; omega

theorem Date.eq_or_lt_of_le {a b : Date} (h : Date.le a b) :
    a = b ∨ Date.lt a b := by
  unfold Date.le at h
  rcases a with ⟨ay, am, ad⟩
  rcases b with ⟨by', bm, bd⟩
  simp only [Date.mk.injEq]
  unfold Date.lt
  simp only at *
  omega

theorem Date.lt_nextDay (a : Date) : Date.lt a a.nextDay := by
  unfold Date.nextDay
  split
  · unfold Date.lt; dsimp only; omega
  · split
    · unfold Date.lt; dsimp only; omega
    · unfold Date.lt; dsimp only; omega

theorem Date.valid_nextDay {a : Date} (h : a.valid) : a.nextDay.valid := by
  obtain ⟨h1, h2, h3, h4⟩ := h
  unfold Date.nextDay Date.valid
  split
  next hd =>
    dsimp only
    omega
  next hd =>
    split
    next hm =>
      dsimp only
      have := daysInMonth_pos a.y (a.m + 1) (by omega) (by omega)
      omega
    next hm =>
      dsimp only
      have := daysInMonth_pos (a.y + 1) 1 (by omega) (by omega)
      omega

theorem Date.nextDay_le_of_lt {a c : Date} (ha : a.valid) (hc : c.valid)
    (h : Date.lt a c) : Date.le a.nextDay c := by
  obtain ⟨ha1, ha2, ha3, ha4⟩ := ha
  obtain ⟨hc1, hc2, hc3, hc4⟩ := hc
  unfold Date.lt at h
  unfold Date.nextDay
  by_cases hym : a.y = c.y ∧ a.m = c.m
  · have hdim : c.d ≤ daysInMonth a.y a.m := by
      rw [hym.1, hym.2]; exact hc4
    split
    next hd => unfold Date.le; dsimp only; omega
    next hd =>
      split
      next hm => unfold Date.le; dsimp only; omega
      next hm => unfold Date.le; dsimp only; omega
  · split
    next hd => unfold Date.le; dsimp only; omega
    next hd =>
      split
      next hm => unfold Date.le; dsimp only; omega
      next hm => unfold Date.le; dsimp only; omega

theorem loopFuel_pos {a b : Date} (h : Date.le a b) : 0 < loopFuel a b := by
  have := Date.le_y h
  unfold loopFuel
  omega

theorem not_le_of_loopFuel_zero {a b : Date} (h : loopFuel a b = 0) :
    ¬ Date.le a b := by
  intro hle
  exact absurd h (Nat.ne_of_gt (loopFuel_pos hle))

theorem loopFuel_nextDay_lt {a b : Date} (h : Date.le a b) :
    loopFuel a.nextDay b < loopFuel a b := by
  have hy := Date.le_y h
  have hdim : daysInMonth a.y a.m ≤ 31 := daysInMonth_le a.y a.m
  unfold loopFuel Date.nextDay
  split
  · dsimp only
    omega
  · split
    · dsimp only
      omega
    · dsimp only
      omega

theorem enumDaysFuel_eq (b : Date) :
    ∀ n a, loopFuel a b ≤ n → enumDaysFuel n a b = enumDaysFuel (loopFuel a b) a b := by
  intro n
  induction n using Nat.strong_induction_on with
  | _ n IH =>
    intro a h
    cases n with
    | zero =>
      have h0 : loopFuel a b = 0 := Nat.le_zero.mp h
      rw [h0]
    | succ k =>
      cases hF : loopFuel a b with
      | zero =>
        have hnle := not_le_of_loopFuel_zero hF
        show (if Date.le a b then a :: enumDaysFuel k a.nextDay b else []) = []
        rw [if_neg hnle]
      | succ m =>
        show (if Date.le a b then a :: enumDaysFuel k a.nextDay b else [])
            = (if Date.le a b then a :: enumDaysFuel m a.nextDay b else [])
        by_cases hle : Date.le a b
        · rw [if_pos hle, if_pos hle]
          have hstep : loopFuel a.nextDay b < loopFuel a b := loopFuel_nextDay_lt hle
        
          have hk : loopFuel a.nextDay b ≤ k := by omega
          have hm : loopFuel a.nextDay b ≤ m := by omega
          have e1 := IH k (by omega) a.nextDay hk
          have e2 := IH m (by omega) a.nextDay hm
          rw [e1, e2]
        · rw [if_neg hle, if_neg hle]

theorem enumDays_unfold (a b : Date) :
    enumDays a b = if Date.le a b then a :: enumDays a.nextDay b else [] := by
  unfold enumDays
  cases hF : loopFuel a b with
  | zero =>
    have hnle := not_le_of_loopFuel_zero hF
    rw [if_neg hnle]
    rfl
  | succ m =>
    show (if Date.le a b then a :: enumDaysFuel m a.nextDay b else []) = _
    by_cases hle : Date.le a b
    · rw [if_pos hle, if_pos hle]
      have hstep : loopFuel a.nextDay b < loopFuel a b := loopFuel_nextDay_lt hle
      rw [enumDaysFuel_eq b m a.nextDay (by omega)]
    · rw [if_neg hle, if_neg hle]

/-- Induction along the structure of the day-enumeration loop. -/
theorem enumDays_induction (b : Date) (P : Date → List Date → Prop)
    (base : ∀ a, ¬ Date.le a b → P a [])
    (step : ∀ a, Date.le a b → P a.nextDay (enumDays a.nextDay b) →
      P a (a :: enumDays a.nextDay b)) :
    ∀ a, P a (enumDays a b) := by
  have key : ∀ n a, loopFuel a b ≤ n → P a (enumDays a b) := by
    intro n
    induction n using Nat.strong_induction_on with
    | _ n IH =>
      intro a h
      rw [enumDays_unfold]
      by_cases hle : Date.le a b
      · rw [if_pos hle]
        have hstep : loopFuel a.nextDay b < loopFuel a b := loopFuel_nextDay_lt hle
        have hpos : 0 < loopFuel a b := loopFuel_pos hle
        exact step a hle (IH (loopFuel a.nextDay b) (by omega) a.nextDay (Nat.le_refl _))
      · rw [if_neg hle]
        exact base a hle
  exact fun a => key (loopFuel a b) a (Nat.le_refl _)

theorem mem_enumDays_ge {a b x : Date} (hx : x ∈ enumDays a b) : Date.le a x := by
  have H : ∀ x, x ∈ enumDays a b → Date.le a x := by
    refine enumDays_induction b (fun a l => ∀ x, x ∈ l → Date.le a x) ?_ ?_ a
    · intro a _ x hx
      cases hx
    · intro a hle IH x hx
      rcases List.mem_cons.mp hx with h | h
      · subst h; exact Date.le_refl x
      · exact Date.le_trans (Date.le_of_lt (Date.lt_nextDay a)) (IH x h)
  exact H x hx

theorem mem_enumDays_le {a b x : Date} (hx : x ∈ enumDays a b) : Date.le x b := by
  have H : ∀ x, x ∈ enumDays a b → Date.le x b := by
    refine enumDays_induction b (fun a l => ∀ x, x ∈ l → Date.le x b) ?_ ?_ a
    · intro a _ x hx
      cases hx
    · intro a hle IH x hx
      rcases List.mem_cons.mp hx with h | h
      · subst h; exact hle
      · exact IH x h
  exact H x hx

theorem mem_enumDays_valid {a b x : Date} (ha : a.valid) (hx : x ∈ enumDays a b) :
    x.valid := by
  have H : a.valid → ∀ x, x ∈ enumDays a b → x.valid := by
    refine enumDays_induction b (fun a l => a.valid → ∀ x, x ∈ l → x.valid) ?_ ?_ a
    · intro a _ _ x hx
      cases hx
    · intro a hle IH ha x hx
      rcases List.mem_cons.mp hx with h | h
      · subst h; exact ha
      · exact IH (Date.valid_nextDay ha) x h
  exact H ha x hx

theorem mem_enumDays_of_le {a b : Date} (ha : a.valid) :
    ∀ c : Date, c.valid → Date.le a c → Date.le c b → c ∈ enumDays a b := by
  intro c hc
  revert ha
  refine enumDays_induction b
    (fun a l => a.valid → Date.le a c → Date.le c b → c ∈ l) ?_ ?_ a
  · intro a hnle _ hac hcb
    exact absurd (Date.le_trans hac hcb) hnle
  · intro a hle IH ha hac hcb
    rcases Date.eq_or_lt_of_le hac with h | h
    · subst h
      exact List.mem_cons_self a _
    · exact List.mem_cons_of_mem a
        (IH (Date.valid_nextDay ha) (Date.nextDay_le_of_lt ha hc h) hcb)

theorem enumDays_pairwise (a b : Date) : (enumDays a b).Pairwise Date.lt := by
  refine enumDays_induction b (fun a l => l.Pairwise Date.lt) ?_ ?_ a
  · intro a _
    exact List.Pairwise.nil
  · intro a hle IH
    refine List.Pairwise.cons ?_ IH
    intro x hx
    exact Date.lt_of_lt_of_le (Date.lt_nextDay a) (mem_enumDays_ge hx)

/-! ### Timestamp enumeration lemmas -/

theorem hoursOf_length (d : Date) : (hoursOf d).length = 23 := by
  simp [hoursOf]

theorem timestamps_length (a b : Date) :
    (timestamps a b).length = 23 * (enumDays a b).length := by
  unfold timestamps
  generalize enumDays a b = l
  induction l with
  | nil => simp
  | cons d l IH =>
    simp only [List.flatMap_cons, List.length_append, IH, hoursOf_length,
      List.length_cons]
    ring

theorem mem_hoursOf (x d : Date) (h : Nat) :
    (d, h) ∈ hoursOf x ↔ x = d ∧ h < 23 := by
  unfold hoursOf
  constructor
  · intro hm
    rcases List.mem_map.mp hm with ⟨a, ha, heq⟩
    have h1 := congrArg Prod.fst heq
    have h2 := congrArg Prod.snd heq
    simp only at h1 h2
    exact ⟨h1, h2 ▸ List.mem_range.mp ha⟩
  · rintro ⟨hx, hh⟩
    exact List.mem_map.mpr ⟨h, List.mem_range.mpr hh, by rw [hx]⟩

theorem fst_of_mem_hoursOf {x : Date × Nat} {d : Date} (hx : x ∈ hoursOf d) :
    x.1 = d :=
  ((mem_hoursOf d x.1 x.2).mp hx).1.symm

theorem mem_timestamps (a b : Date) (d : Date) (h : Nat) :
    (d, h) ∈ timestamps a b ↔ d ∈ enumDays a b ∧ h < 23 := by
  unfold timestamps
  simp only [List.mem_flatMap]
  constructor
  · rintro ⟨x, hx, hm⟩
    rcases (mem_hoursOf x d h).mp hm with ⟨rfl, hh⟩
    exact ⟨hx, hh⟩
  · rintro ⟨hd, hh⟩
    exact ⟨d, hd, (mem_hoursOf d d h).mpr ⟨rfl, hh⟩⟩

theorem timestamps_pairwise (a b : Date) : (timestamps a b).Pairwise tsLt := by
  unfold timestamps
  have hdays := enumDays_pairwise a b
  generalize enumDays a b = l at *
  induction l with
  | nil => exact List.Pairwise.nil
  | cons d l IH =>
    rcases hdays with - | ⟨hrel, htail⟩
    rw [List.flatMap_cons, List.pairwise_append]
    refine ⟨?_, IH htail, ?_⟩
    · unfold hoursOf
      rw [List.pairwise_map]
      exact (List.pairwise_lt_range 23).imp (fun hlt => Or.inr ⟨rfl, hlt⟩)
    · intro x hx y hy
      have hx1 : x.1 = d := fst_of_mem_hoursOf hx
      rcases List.mem_flatMap.mp hy with ⟨d', hd', hyd'⟩
      have hy1 : y.1 = d' := fst_of_mem_hoursOf hyd'
      unfold tsLt
      rw [hx1, hy1]
      exact Or.inl (hrel d' hd')

/-! ### Values and lengths of formatted decimal strings -/

theorem charVal_digitChar : ∀ d, d < 10 → charVal (Nat.digitChar d) = d := by decide

theorem digitChar_ne_plus : ∀ d, d < 10 → Nat.digitChar d ≠ '+' := by decide

theorem digitsVal_append_single (l : List Char) (c : Char) :
    digitsVal (l ++ [c]) = 10 * digitsVal l + charVal c := by
  unfold digitsVal
  rw [List.foldl_append]
  rfl

theorem digitsVal_natDigitsAux : ∀ f n, n ≤ f → digitsVal (natDigitsAux f n) = n := by
  intro f
  induction f using Nat.strong_induction_on with
  | _ f IH =>
    intro n h
    cases f with
    | zero =>
      have h0 : n = 0 := Nat.le_zero.mp h
      subst h0
      rfl
    | succ f' =>
      cases n with
      | zero => rfl
      | succ n' =>
        show digitsVal (natDigitsAux f' ((n' + 1) / 10) ++ [Nat.digitChar ((n' + 1) % 10)])
            = n' + 1
        rw [digitsVal_append_single]
        have hdiv : (n' + 1) / 10 ≤ f' := by
          have : (n' + 1) / 10 < n' + 1 := Nat.div_lt_self (by omega) (by omega)
          omega
        rw [IH f' (by omega) _ hdiv, charVal_digitChar _ (Nat.mod_lt _ (by omega))]
        omega

theorem digitsVal_natDigits (n : Nat) : digitsVal (natDigits n) = n := by
  unfold natDigits
  split
  next h => subst h; rfl
  next h => exact digitsVal_natDigitsAux n n (Nat.le_refl n)

theorem foldl_replicate_zero :
    ∀ k, List.foldl (fun a c => 10 * a + charVal c) 0 (List.replicate k '0') = 0 := by
  intro k
  induction k with
  | zero => rfl
  | succ k IH =>
    rw [List.replicate_succ]
    have hz : (10 * 0 + charVal '0') = 0 := by decide
    show List.foldl _ (10 * 0 + charVal '0') _ = 0
    rw [hz]
    exact IH

theorem digitsVal_zeroPad (w : Nat) (l : List Char) :
    digitsVal (zeroPad w l) = digitsVal l := by
  unfold zeroPad
  unfold digitsVal
  rw [List.foldl_append, foldl_replicate_zero]

theorem natDigitsAux_chars :
    ∀ f n c, c ∈ natDigitsAux f n → ∃ d, d < 10 ∧ c = Nat.digitChar d := by
  intro f
  induction f using Nat.strong_induction_on with
  | _ f IH =>
    intro n c hc
    cases f with
    | zero => exact absurd hc (List.not_mem_nil c)
    | succ f' =>
      cases n with
      | zero => exact absurd hc (List.not_mem_nil c)
      | succ n' =>
        have hc' : c ∈ natDigitsAux f' ((n' + 1) / 10) ++ [Nat.digitChar ((n' + 1) % 10)] := hc
        rcases List.mem_append.mp hc' with h | h
        · exact IH f' (by omega) _ c h
        · rw [List.mem_singleton] at h
          exact ⟨(n' + 1) % 10, Nat.mod_lt _ (by omega), h⟩

theorem natDigits_chars {n : Nat} {c : Char} (hc : c ∈ natDigits n) :
    ∃ d, d < 10 ∧ c = Nat.digitChar d := by
  unfold natDigits at hc
  split at hc
  · rw [List.mem_singleton] at hc
    exact ⟨0, by omega, by rw [hc]; rfl⟩
  · exact natDigitsAux_chars n n c hc

theorem digitsVal_lt {l : List Char} (h : ∀ c ∈ l, charVal c < 10) :
    digitsVal l < 10 ^ l.length := by
  induction l using List.reverseRecOn with
  | nil => decide
  | append_singleton l c IH =>
    rw [digitsVal_append_single, List.length_append, List.length_singleton,
      Nat.pow_succ]
    have h1 : charVal c < 10 := h c (by simp)
    have h2 : digitsVal l < 10 ^ l.length := IH (fun c' hc' => h c' (by simp [hc']))
    omega

theorem natDigitsAux_length_le :
    ∀ f n k, n ≤ f → n < 10 ^ k → (natDigitsAux f n).length ≤ k := by
  intro f
  induction f using Nat.strong_induction_on with
  | _ f IH =>
    intro n k hf hk
    cases f with
    | zero => exact Nat.zero_le k
    | succ f' =>
      cases n with
      | zero => exact Nat.zero_le k
      | succ n' =>
        show (natDigitsAux f' ((n' + 1) / 10) ++ [Nat.digitChar ((n' + 1) % 10)]).length ≤ k
        rw [List.length_append, List.length_singleton]
        cases k with
        | zero =>
          exfalso
          have : (10 : Nat) ^ 0 = 1 := rfl
          omega
        | succ k' =>
          have hdiv : (n' + 1) / 10 ≤ f' := by
            have : (n' + 1) / 10 < n' + 1 := Nat.div_lt_self (by omega) (by omega)
            omega
          have hk' : (n' + 1) / 10 < 10 ^ k' := by
            rw [Nat.div_lt_iff_lt_mul (by omega : 0 < 10)]
            calc n' + 1 < 10 ^ (k' + 1) := hk
              _ = 10 ^ k' * 10 := Nat.pow_succ 10 k'
          have := IH f' (by omega) _ k' hdiv hk'
          omega

theorem natDigits_length_le {n k : Nat} (h1 : 1 ≤ k) (h2 : n < 10 ^ k) :
    (natDigits n).length ≤ k := by
  unfold natDigits
  split
  · simpa using h1
  · exact natDigitsAux_length_le n n k (Nat.le_refl n) h2

theorem natDigits_length_ge {n k : Nat} (h : 10 ^ k ≤ n) :
    k < (natDigits n).length := by
  by_contra hle
  push_neg at hle
  have hchars : ∀ c ∈ natDigits n, charVal c < 10 := by
    intro c hc
    rcases natDigits_chars hc with ⟨d, hd, rfl⟩
    rw [charVal_digitChar d hd]
    exact hd
  have hlt := digitsVal_lt hchars
  rw [digitsVal_natDigits] at hlt
  have : n < 10 ^ k := lt_of_lt_of_le hlt (Nat.pow_le_pow_right (by omega) hle)
  omega

theorem natDigits_length_pos (n : Nat) : 0 < (natDigits n).length := by
  by_cases h : n = 0
  · subst h
    decide
  · exact natDigits_length_ge (k := 0) (by simpa using Nat.pos_of_ne_zero h)

theorem str_ext {s t : String} (h : s.data = t.data) : s = t := by
  cases s
  cases t
  exact congrArg String.mk h

theorem digitsVal_fmt02 (n : Nat) : digitsVal (fmt02 n).data = n := by
  show digitsVal (zeroPad 2 (natDigits n)) = n
  rw [digitsVal_zeroPad, digitsVal_natDigits]

theorem fmt02_length {n : Nat} (h : n < 100) : (fmt02 n).data.length = 2 := by
  show (zeroPad 2 (natDigits n)).length = 2
  unfold zeroPad
  rw [List.length_append, List.length_replicate]
  have h2 : (10 : Nat) ^ 2 = 100 := by norm_num
  have : (natDigits n).length ≤ 2 := natDigits_length_le (by omega) (by omega)
  omega

theorem fmt02_inj {n1 n2 : Nat} (h : (fmt02 n1).data = (fmt02 n2).data) : n1 = n2 := by
  have := congrArg digitsVal h
  rwa [digitsVal_fmt02, digitsVal_fmt02] at this

theorem fmtY_data_small {y : Nat} (h : y < 10000) :
    (fmtY y).data = zeroPad 4 (natDigits y) := by
  unfold fmtY
  rw [if_neg (by omega)]

theorem fmtY_data_large {y : Nat} (h : 10000 ≤ y) :
    (fmtY y).data = '+' :: natDigits y := by
  unfold fmtY
  rw [if_pos h]
  rfl

theorem digitsVal_fmtY_small {y : Nat} (h : y < 10000) :
    digitsVal (fmtY y).data = y := by
  rw [fmtY_data_small h, digitsVal_zeroPad, digitsVal_natDigits]

theorem fmtY_length_small {y : Nat} (h : y < 10000) : (fmtY y).data.length = 4 := by
  rw [fmtY_data_small h]
  unfold zeroPad
  rw [List.length_append, List.length_replicate]
  have h4 : (10 : Nat) ^ 4 = 10000 := by norm_num
  have : (natDigits y).length ≤ 4 := natDigits_length_le (by omega) (by omega)
  omega

theorem fmtY_inj {y1 y2 : Nat} (h : (fmtY y1).data = (fmtY y2).data) : y1 = y2 := by
  by_cases h1 : 10000 ≤ y1 <;> by_cases h2 : 10000 ≤ y2
  · rw [fmtY_data_large h1, fmtY_data_large h2] at h
    injection h with _ h'
    have := congrArg digitsVal h'
    rwa [digitsVal_natDigits, digitsVal_natDigits] at this
  · exfalso
    rw [fmtY_data_large h1, fmtY_data_small (by omega)] at h
    unfold zeroPad at h
    cases hrep : 4 - (natDigits y2).length with
    | zero =>
      rw [hrep, List.replicate_zero, List.nil_append] at h
      have hm : '+' ∈ natDigits y2 := by
        rw [← h]
        exact List.mem_cons_self _ _
      rcases natDigits_chars hm with ⟨d, hd, heq⟩
      exact digitChar_ne_plus d hd heq.symm
    | succ k =>
      rw [hrep, List.replicate_succ, List.cons_append] at h
      injection h with h0 _
      exact absurd h0 (by decide)
  · exfalso
    rw [fmtY_data_large h2, fmtY_data_small (by omega)] at h
    unfold zeroPad at h
    cases hrep : 4 - (natDigits y1).length with
    | zero =>
      rw [hrep, List.replicate_zero, List.nil_append] at h
      have hm : '+' ∈ natDigits y1 := by
        rw [h]
        exact List.mem_cons_self _ _
      rcases natDigits_chars hm with ⟨d, hd, heq⟩
      exact digitChar_ne_plus d hd heq.symm
    | succ k =>
      rw [hrep, List.replicate_succ, List.cons_append] at h
      injection h with h0 _
      exact absurd h0.symm (by decide)
  · have := congrArg digitsVal h
    rwa [digitsVal_fmtY_small (by omega), digitsVal_fmtY_small (by omega)] at this

/-! ### Work items (WorkItemBuilder): the two `format!` calls of `main` -/

/-- The fixed base URL (line 1 of `main.rs`). -/
def IMAGE_BASE_URL : String := "https://climate.weather.gc.ca/radar/image_e.html"

/-- The local file name
`format!("{site}_{imagetype}_{year}-{month}-{day}T{hour}-00.gif", ...)`,
with `year`/`month`/`day` printed by chrono's `%Y`/`%m`/`%d` and `hour` by
`format!("{:02}", hour)`. -/
def mkFileName (site imagetype : String) (dt : Date) (hour : Nat) : String :=
  site ++ "_" ++ imagetype ++ "_" ++ fmtY dt.y ++ "-" ++ fmt02 dt.m ++ "-"
    ++ fmt02 dt.d ++ "T" ++ fmt02 hour ++ "-00.gif"

/-- The remote URL
`format!("{base}?time={year}{month}{day}{hour}00&site={site}&image_type={imagetype}", ...)`. -/
def mkUrl (site imagetype : String) (dt : Date) (hour : Nat) : String :=
  IMAGE_BASE_URL ++ "?time=" ++ fmtY dt.y ++ fmt02 dt.m ++ fmt02 dt.d
    ++ fmt02 hour ++ "00" ++ "&site=" ++ site ++ "&image_type=" ++ imagetype

theorem mkFileName_data (site imagetype : String) (dt : Date) (hour : Nat) :
    (mkFileName site imagetype dt hour).data
      = site.data ++ '_' :: (imagetype.data ++ '_' :: ((fmtY dt.y).data
        ++ '-' :: ((fmt02 dt.m).data ++ '-' :: ((fmt02 dt.d).data
        ++ 'T' :: ((fmt02 hour).data
        ++ ['-', '0', '0', '.', 'g', 'i', 'f']))))) := by
  unfold mkFileName
  simp only [String.data_append]
  simp only [List.append_assoc, List.singleton_append, List.cons_append,
    List.nil_append]

/-! ### Filesystem, HTTP world, and the fetch executor `process_file` -/

/-- Destination directory state: whether it exists, and the names of the
files directly inside it. -/
structure FsState where
  dirExists : Bool
  files : List String
deriving DecidableEq, Repr

/-- Outcome of `ureq::get(url).call()` together with the behaviour of the
subsequent body read: a successful response whose `read_to_end` either
succeeds with `body` or fails (`readOk = false`), an HTTP status error, or
any other transport error. -/
inductive HttpCall where
  | success (readOk : Bool) (body : List Nat)
  | status (code : Nat)
  | failure
deriving DecidableEq, Repr

/-- The environment one `process_file` invocation runs against: the HTTP
call outcome for its URL and whether each local filesystem operation
(`create_dir`, `File::create`, `write_all`) succeeds. -/
structure ItemEnv where
  call : HttpCall
  createDirOk : Bool
  createFileOk : Bool
  writeOk : Bool
deriving DecidableEq, Repr

/-- The `error!` log lines `process_file` can emit. -/
inductive LogEvent where
  | createFileError
  | httpStatus (code : Nat)
  | transport
deriving DecidableEq, Repr

instance : DecidableEq (Except Unit Unit)
  | .ok (), .ok () => isTrue rfl
  | .ok (), .error () => isFalse (by intro h; cases h)
  | .error (), .ok () => isFalse (by intro h; cases h)
  | .error (), .error () => isTrue rfl

/-- What a `process_file` invocation does: return a `Result<(), ()>`, or
panic (an `expect` fired), which aborts the run. -/
inductive ProcOutcome where
  | panicked
  | returned (r : Except Unit Unit)
deriving DecidableEq, Repr

structure ProcResult where
  fs : FsState
  outcome : ProcOutcome
  logs : List LogEvent
deriving DecidableEq, Repr

/-- `process_file(file_url, directory, identifier)` from `main.rs`:
on a successful call, create the directory if absent (`expect` → panic on
failure), read the body (`expect` → panic on failure), and if the body is
non-empty create the file (log + `Err` on failure) and write it
(`expect` → panic on failure); an empty body is `Err` without a log; an
HTTP status error or transport error is logged and `Err`. -/
def process_file (env : ItemEnv) (identifier : String) (fs : FsState) : ProcResult :=
  match env.call with
  | .success readOk body =>
    if !fs.dirExists && !env.createDirOk then
      ⟨fs, .panicked, []⟩
    else
      let fs1 : FsState := ⟨true, fs.files⟩
      if !readOk then ⟨fs1, .panicked, []⟩
      else if !body.isEmpty then
        if env.createFileOk then
          let fs2 : FsState := ⟨true, fs1.files.insert identifier⟩
          if env.writeOk then ⟨fs2, .returned (.ok ()), []⟩
          else ⟨fs2, .panicked, []⟩
        else ⟨fs1, .returned (.error ()), [.createFileError]⟩
      else ⟨fs1, .returned (.error ()), []⟩
  | .status code => ⟨fs, .returned (.error ()), [.httpStatus code]⟩
  | .failure => ⟨fs, .returned (.error ()), [.transport]⟩

/-! ### The main pipeline -/

/-- The validated configuration `main` reads from its arguments.
`startHour` is the parsed `start-hour` argument (default 0). -/
structure RunConfig where
  site : String
  imageType : String
  startDate : Date
  endDate : Date
  startHour : Nat
  directory : String
deriving DecidableEq, Repr

/-- `file_list.iter().any(|x| x == &file_name)`. -/
def hasName (l : List String) (n : String) : Bool :=
  l.any (fun x => x == n)

/-- The `if let Some(file_list) = existing_files.as_ref()` filter check. -/
def hasNameOpt : Option (List String) → String → Bool
  | some l, n => hasName l n
  | none, _ => false

/-- The `existing_files` block of `main`: if the directory does not exist,
create it and record no index (`None`); otherwise snapshot the listing. -/
def captureExisting (fs : FsState) : FsState × Option (List String) :=
  if fs.dirExists then (fs, some fs.files) else (⟨true, fs.files⟩, none)

/-- The nested enumeration loop of `main` that fills `file_urls`: for every
day and hour, build the file name, skip it if the captured index contains
it, otherwise push `(fetch_url, file_name)`. -/
def buildFileUrls (cfg : RunConfig) (existing : Option (List String)) :
    List (String × String) :=
  (enumDays cfg.startDate cfg.endDate).flatMap (fun dt =>
    (List.range 23).filterMap (fun hour =>
      let file_name := mkFileName cfg.site cfg.imageType dt hour
      if hasNameOpt existing file_name then none
      else some (mkUrl cfg.site cfg.imageType dt hour, file_name)))

structure RunItemsOut where
  fs : FsState
  results : List (Except Unit Unit)
  incs : Nat
  completed : Bool
deriving DecidableEq, Repr

/-- The `file_urls.par_iter().map(|(path, identifier)| { bar.inc(1);
process_file(..) }).collect()` loop.  Items write distinct files and share
no mutable state, so the parallel iteration is modelled sequentially;
`incs` counts `bar.inc(1)` calls and a panic aborts the remaining run. -/
def runItems (oracle : String → ItemEnv) :
    List (String × String) → FsState → RunItemsOut
  | [], fs => ⟨fs, [], 0, true⟩
  | (url, name) :: rest, fs =>
    let pr := process_file (oracle url) name fs
    match pr.outcome with
    | .panicked => ⟨pr.fs, [], 1, false⟩
    | .returned r =>
      let out := runItems oracle rest pr.fs
      ⟨out.fs, r :: out.results, 1 + out.incs, out.completed⟩

structure RunOut where
  fs : FsState
  dispatched : List (String × String)
  results : List (Except Unit Unit)
  incs : Nat
  completed : Bool
deriving DecidableEq, Repr

/-- The whole of `main` after argument parsing: capture the existing-file
index (creating the directory if needed), build the filtered work-item
list, and run every item. -/
def runPipeline (cfg : RunConfig) (oracle : String → ItemEnv) (fs0 : FsState) :
    RunOut :=
  let cap := captureExisting fs0
  let items := buildFileUrls cfg cap.2
  let out := runItems oracle items cap.1
  ⟨out.fs, items, out.results, out.incs, out.completed⟩

/-! ### Spec-side definitions (for the refinement claims) -/

/-- Modelled from the spec: the five-valued per-item `FetchResult` taxonomy
of §3/§4.4.  The code has no such type; its `process_file` returns only
`Result<(), ()>`. -/
inductive FetchResult where
  | Saved
  | EmptyBody
  | HttpError (code : Nat)
  | TransportError
  | WriteError
deriving DecidableEq, Repr

/-- Modelled from the spec: §4.4's decision table, classifying one item's
environment into the five `FetchResult` values (transport-level failure
includes an I/O failure mid-transfer; a local create/write failure is
`WriteError`). -/
def specClassify (env : ItemEnv) : FetchResult :=
  match env.call with
  | .failure => .TransportError
  | .status code => .HttpError code
  | .success false _ => .TransportError
  | .success true body =>
    if body.isEmpty then .EmptyBody
    else if env.createFileOk && env.writeOk then .Saved else .WriteError

/-- An environment in which the item is saved: the call succeeds with a
non-empty body and every local operation succeeds. -/
def SavedEnv (env : ItemEnv) : Prop :=
  env.createDirOk = true ∧ env.createFileOk = true ∧ env.writeOk = true ∧
    ∃ b, env.call = .success true b ∧ b ≠ []

/-- An environment in which `process_file` cannot hit an `expect`. -/
def NonPanicking (env : ItemEnv) : Prop :=
  env.createDirOk = true ∧
    ∀ ro b, env.call = .success ro b →
      ro = true ∧ (b ≠ [] → env.createFileOk = true → env.writeOk = true)

/-- Modelled after the spec's words: a zero-padded two-digit decimal field
(`MM`, `DD`, `HH`). -/
def specPad2 (n : Nat) : String :=
  if n < 10 then "0" ++ String.mk (natDigits n) else String.mk (natDigits n)

/-- Modelled after the spec's words: the four-digit zero-padded year
`YYYY`. -/
def specYear4 (y : Nat) : String :=
  if y < 10 then "000" ++ String.mk (natDigits y)
  else if y < 100 then "00" ++ String.mk (natDigits y)
  else if y < 1000 then "0" ++ String.mk (natDigits y)
  else String.mk (natDigits y)

/-! ### The code's formatting agrees with the spec's template fields -/

theorem fmt02_eq_specPad2 (n : Nat) : fmt02 n = specPad2 n := by
  have h10 : (10 : Nat) ^ 1 = 10 := by norm_num
  have h100 : (10 : Nat) ^ 2 = 100 := by norm_num
  have hpos := natDigits_length_pos n
  unfold fmt02 specPad2
  by_cases h : n < 10
  · rw [if_pos h]
    have hle := natDigits_length_le (n := n) (k := 1) (by omega) (by omega)
    have hlen : (natDigits n).length = 1 := by omega
    apply str_ext
    show zeroPad 2 (natDigits n) = ("0" ++ String.mk (natDigits n)).data
    unfold zeroPad
    rw [hlen, String.data_append]
    rfl
  · rw [if_neg h]
    have hge := natDigits_length_ge (n := n) (k := 1) (by omega)
    apply str_ext
    show zeroPad 2 (natDigits n) = (String.mk (natDigits n)).data
    unfold zeroPad
    rw [show 2 - (natDigits n).length = 0 by omega]
    rfl

theorem fmtY_eq_specYear4 {y : Nat} (hy : y ≤ 9999) : fmtY y = specYear4 y := by
  have h10 : (10 : Nat) ^ 1 = 10 := by norm_num
  have h100 : (10 : Nat) ^ 2 = 100 := by norm_num
  have h1000 : (10 : Nat) ^ 3 = 1000 := by norm_num
  have h10000 : (10 : Nat) ^ 4 = 10000 := by norm_num
  have hpos := natDigits_length_pos y
  unfold fmtY specYear4
  rw [if_neg (by omega : ¬ 10000 ≤ y)]
  by_cases c1 : y < 10
  · rw [if_pos c1]
    have hle := natDigits_length_le (n := y) (k := 1) (by omega) (by omega)
    have hlen : (natDigits y).length = 1 := by omega
    apply str_ext
    show zeroPad 4 (natDigits y) = ("000" ++ String.mk (natDigits y)).data
    unfold zeroPad
    rw [hlen, String.data_append]
    rfl
  · rw [if_neg c1]
    by_cases c2 : y < 100
    · rw [if_pos c2]
      have hge := natDigits_length_ge (n := y) (k := 1) (by omega)
      have hle := natDigits_length_le (n := y) (k := 2) (by omega) (by omega)
      have hlen : (natDigits y).length = 2 := by omega
      apply str_ext
      show zeroPad 4 (natDigits y) = ("00" ++ String.mk (natDigits y)).data
      unfold zeroPad
      rw [hlen, String.data_append]
      rfl
    · rw [if_neg c2]
      by_cases c3 : y < 1000
      · rw [if_pos c3]
        have hge := natDigits_length_ge (n := y) (k := 2) (by omega)
        have hle := natDigits_length_le (n := y) (k := 3) (by omega) (by omega)
        have hlen : (natDigits y).length = 3 := by omega
        apply str_ext
        show zeroPad 4 (natDigits y) = ("0" ++ String.mk (natDigits y)).data
        unfold zeroPad
        rw [hlen, String.data_append]
        rfl
      · rw [if_neg c3]
        have hge := natDigits_length_ge (n := y) (k := 3) (by omega)
        have hle := natDigits_length_le (n := y) (k := 4) (by omega) (by omega)
        have hlen : (natDigits y).length = 4 := by omega
        apply str_ext
        show zeroPad 4 (natDigits y) = (String.mk (natDigits y)).data
        unfold zeroPad
        rw [hlen]
        rfl

/-! ### Dispatch-list membership -/

theorem hasName_iff (l : List String) (n : String) :
    hasName l n = true ↔ n ∈ l := by
  unfold hasName
  rw [List.any_eq_true]
  constructor
  · rintro ⟨x, hx, he⟩
    exact (eq_of_beq he) ▸ hx
  · intro hn
    exact ⟨n, hn, beq_self_eq_true n⟩

theorem mem_buildFileUrls_of {cfg : RunConfig} {existing : Option (List String)}
    {dt : Date} {hour : Nat} (hd : dt ∈ enumDays cfg.startDate cfg.endDate)
    (hh : hour < 23)
    (hskip : hasNameOpt existing (mkFileName cfg.site cfg.imageType dt hour) = false) :
    (mkUrl cfg.site cfg.imageType dt hour, mkFileName cfg.site cfg.imageType dt hour)
      ∈ buildFileUrls cfg existing := by
  unfold buildFileUrls
  rw [List.mem_flatMap]
  refine ⟨dt, hd, ?_⟩
  rw [List.mem_filterMap]
  refine ⟨hour, List.mem_range.mpr hh, ?_⟩
  simp only
  rw [if_neg (by rw [hskip]; exact Bool.false_ne_true)]

theorem mem_buildFileUrls_elim {cfg : RunConfig} {existing : Option (List String)}
    {p : String × String} (hp : p ∈ buildFileUrls cfg existing) :
    ∃ dt hour, dt ∈ enumDays cfg.startDate cfg.endDate ∧ hour < 23
      ∧ p = (mkUrl cfg.site cfg.imageType dt hour,
             mkFileName cfg.site cfg.imageType dt hour)
      ∧ hasNameOpt existing (mkFileName cfg.site cfg.imageType dt hour) = false := by
  unfold buildFileUrls at hp
  rw [List.mem_flatMap] at hp
  rcases hp with ⟨dt, hd, hp⟩
  rw [List.mem_filterMap] at hp
  rcases hp with ⟨hour, hh, hp⟩
  simp only at hp
  by_cases hc : hasNameOpt existing (mkFileName cfg.site cfg.imageType dt hour) = true
  · rw [if_pos hc] at hp
    cases hp
  · rw [if_neg hc] at hp
    injection hp with hp
    exact ⟨dt, hour, hd, List.mem_range.mp hh, hp.symm, by
      revert hc
      cases hasNameOpt existing (mkFileName cfg.site cfg.imageType dt hour) <;> simp⟩

theorem buildFileUrls_eq_nil {cfg : RunConfig} {existing : Option (List String)}
    (h : ∀ dt ∈ enumDays cfg.startDate cfg.endDate, ∀ hour < 23,
      hasNameOpt existing (mkFileName cfg.site cfg.imageType dt hour) = true) :
    buildFileUrls cfg existing = [] := by
  unfold buildFileUrls
  rw [List.flatMap_eq_nil_iff]
  intro dt hdt
  rw [List.filterMap_eq_nil_iff]
  intro hour hh
  simp only
  have hc := h dt hdt hour (List.mem_range.mp hh)
  rw [if_pos hc]

/-! ### Behaviour of `process_file` and the parallel runner -/

theorem process_file_files_mono (env : ItemEnv) (n : String) (fs : FsState)
    {x : String} (hx : x ∈ fs.files) : x ∈ (process_file env n fs).fs.files := by
  rcases env with ⟨call, cdo, cfo, wo⟩
  unfold process_file
  cases call <;> dsimp only <;> repeat' split
  all_goals simp_all [List.mem_insert_iff]

theorem process_file_dir_mono (env : ItemEnv) (n : String) (fs : FsState)
    (h : fs.dirExists = true) : (process_file env n fs).fs.dirExists = true := by
  rcases env with ⟨call, cdo, cfo, wo⟩
  unfold process_file
  cases call <;> dsimp only <;> repeat' split
  all_goals simp_all

theorem process_file_saved {env : ItemEnv} (n : String) (fs : FsState)
    (h : SavedEnv env) :
    process_file env n fs
      = ⟨⟨true, fs.files.insert n⟩, .returned (.ok ()), []⟩ := by
  rcases h with ⟨h1, h2, h3, b, hc, hb⟩
  have hbe : b.isEmpty = false := by
    cases b
    · exact absurd rfl hb
    · rfl
  unfold process_file
  rw [hc]
  simp [h1, h2, h3, hbe]

theorem process_file_returned {env : ItemEnv} (h : NonPanicking env)
    (n : String) (fs : FsState) :
    ∃ r, (process_file env n fs).outcome = .returned r := by
  rcases h with ⟨h1, h2⟩
  unfold process_file
  cases hc : env.call with
  | success ro body =>
    rcases h2 ro body hc with ⟨hro, hw⟩
    subst hro
    dsimp only
    simp only [h1, Bool.not_true, Bool.and_false, if_neg (by simp : ¬ (!fs.dirExists && false) = true)]
    by_cases hb : body.isEmpty
    · simp [hb]
    · have hbne : body ≠ [] := by
        cases body
        · exact absurd rfl hb
        · exact List.cons_ne_nil _ _
      by_cases hcf : env.createFileOk = true
      · have hwo := hw hbne hcf
        simp [hb, hcf, hwo]
      · simp [hb, hcf]
  | status code => simp
  | failure => simp

theorem runItems_files_mono (oracle : String → ItemEnv) :
    ∀ (items : List (String × String)) (fs : FsState) (x : String),
      x ∈ fs.files → x ∈ (runItems oracle items fs).fs.files := by
  intro items
  induction items with
  | nil => intro fs x hx; exact hx
  | cons p rest IH =>
    intro fs x hx
    rcases p with ⟨url, name⟩
    have hmono := process_file_files_mono (oracle url) name fs hx
    unfold runItems
    dsimp only
    cases houtcome : (process_file (oracle url) name fs).outcome with
    | panicked => simp only [houtcome]; exact hmono
    | returned r => simp only [houtcome]; exact IH _ x hmono

theorem runItems_dir_mono (oracle : String → ItemEnv) :
    ∀ (items : List (String × String)) (fs : FsState),
      fs.dirExists = true → (runItems oracle items fs).fs.dirExists = true := by
  intro items
  induction items with
  | nil => intro fs hx; exact hx
  | cons p rest IH =>
    intro fs hx
    rcases p with ⟨url, name⟩
    have hmono := process_file_dir_mono (oracle url) name fs hx
    unfold runItems
    dsimp only
    cases houtcome : (process_file (oracle url) name fs).outcome with
    | panicked => simp only [houtcome]; exact hmono
    | returned r => simp only [houtcome]; exact IH _ hmono

theorem runItems_saved_covers (oracle : String → ItemEnv) :
    ∀ (items : List (String × String)) (fs : FsState),
      (∀ p ∈ items, SavedEnv (oracle p.1)) →
      (∀ p ∈ items, p.2 ∈ (runItems oracle items fs).fs.files)
        ∧ (runItems oracle items fs).completed = true := by
  intro items
  induction items with
  | nil =>
    intro fs _
    exact ⟨fun p hp => absurd hp (List.not_mem_nil p), rfl⟩
  | cons p rest IH =>
    intro fs hsav
    rcases p with ⟨url, name⟩
    have hfirst : SavedEnv (oracle url) := hsav (url, name) (List.mem_cons_self _ _)
    have heq := process_file_saved name fs hfirst
    unfold runItems
    dsimp only
    rw [heq]
    dsimp only
    have hrest := IH (⟨true, fs.files.insert name⟩ : FsState)
      (fun q hq => hsav q (List.mem_cons_of_mem _ hq))
    refine ⟨?_, hrest.2⟩
    intro q hq
    rcases List.mem_cons.mp hq with h | h
    · subst h
      dsimp only
      exact runItems_files_mono oracle rest _ _
        (List.mem_insert_iff.mpr (Or.inl rfl))
    · exact hrest.1 q h

theorem runItems_nonpanic (oracle : String → ItemEnv) :
    ∀ (items : List (String × String)) (fs : FsState),
      (∀ p ∈ items, NonPanicking (oracle p.1)) →
      (runItems oracle items fs).completed = true
        ∧ (runItems oracle items fs).results.length = items.length
        ∧ (runItems oracle items fs).incs = items.length := by
  intro items
  induction items with
  | nil => intro fs _; exact ⟨rfl, rfl, rfl⟩
  | cons p rest IH =>
    intro fs hnp
    rcases p with ⟨url, name⟩
    rcases process_file_returned (hnp (url, name) (List.mem_cons_self _ _)) name fs
      with ⟨r, hr⟩
    unfold runItems
    dsimp only
    rw [hr]
    dsimp only
    have hrest := IH (process_file (oracle url) name fs).fs
      (fun q hq => hnp q (List.mem_cons_of_mem _ hq))
    refine ⟨hrest.1, ?_, ?_⟩
    · simp [hrest.2.1]
    · simp only [List.length_cons, hrest.2.2]
      omega

theorem runItems_completed_lengths (oracle : String → ItemEnv) :
    ∀ (items : List (String × String)) (fs : FsState),
      (runItems oracle items fs).completed = true →
      (runItems oracle items fs).results.length = items.length
        ∧ (runItems oracle items fs).incs = items.length := by
  intro items
  induction items with
  | nil => intro fs _; exact ⟨rfl, rfl⟩
  | cons p rest IH =>
    intro fs hc
    rcases p with ⟨url, name⟩
    unfold runItems at hc ⊢
    dsimp only at hc ⊢
    cases houtcome : (process_file (oracle url) name fs).outcome with
    | panicked =>
      rw [houtcome] at hc
      simp at hc
    | returned r =>
      rw [houtcome] at hc
      dsimp only at hc ⊢
      have hrest := IH (process_file (oracle url) name fs).fs hc
      refine ⟨?_, ?_⟩
      · simp [hrest.1]
      · simp only [List.length_cons, hrest.2]
        omega

/-! ### Claim theorems -/

/-- Conclusion of claim C1 for a date range: the enumeration has
`23 × (number of days)` entries, the day list is exactly the valid days in
`[d0, d1]`, each day carries exactly the hours `0..22`, and the whole list
is strictly increasing in (day, hour) order (hence duplicate-free). -/
def C1Prop (d0 d1 : Date) : Prop :=
  (timestamps d0 d1).length = 23 * (enumDays d0 d1).length
  ∧ (∀ d : Date, d.valid → (d ∈ enumDays d0 d1 ↔ Date.le d0 d ∧ Date.le d d1))
  ∧ (enumDays d0 d1).Pairwise Date.lt
  ∧ (∀ (d : Date) (h : Nat), (d, h) ∈ timestamps d0 d1 ↔ d ∈ enumDays d0 d1 ∧ h < 23)
  ∧ (timestamps d0 d1).Pairwise tsLt

/-- C1: for every pair of valid calendar dates `d0 ≤ d1`, the time-range
enumeration produces exactly `(number of days in [d0, d1]) × 23`
timestamps — for each day the hours 0 through 22 — in strictly increasing
(day, hour) order with no duplicates. -/
theorem c1_enumeration_theorem (d0 d1 : Date) (h0 : d0.valid) (_h1 : d1.valid)
    (_hle : Date.le d0 d1) : C1Prop d0 d1 := by
  refine ⟨timestamps_length d0 d1, ?_, enumDays_pairwise d0 d1,
    fun d h => mem_timestamps d0 d1 d h, timestamps_pairwise d0 d1⟩
  intro d hd
  constructor
  · intro hmem
    exact ⟨mem_enumDays_ge hmem, mem_enumDays_le hmem⟩
  · rintro ⟨hge, hle'⟩
    exact mem_enumDays_of_le h0 d hd hge hle'

/-- Witness for C1 at the concrete range 2021-01-01 .. 2021-01-02. -/
theorem c1_enumeration_witness :
    Date.valid ⟨2021, 1, 1⟩ ∧ Date.valid ⟨2021, 1, 2⟩
      ∧ Date.le ⟨2021, 1, 1⟩ ⟨2021, 1, 2⟩
      ∧ C1Prop ⟨2021, 1, 1⟩ ⟨2021, 1, 2⟩ :=
  ⟨by decide, by decide, by decide,
    c1_enumeration_theorem ⟨2021, 1, 1⟩ ⟨2021, 1, 2⟩ (by decide) (by decide) (by decide)⟩

/-- C9: the `start-hour` configuration value (parsed by `command_usage` but
never read in `main`) has no effect: two configurations that differ only in
`startHour` produce identical work-item lists and identical pipeline runs. -/
theorem c9_starthour_theorem (cfg : RunConfig) (h' : Nat)
    (existing : Option (List String)) (oracle : String → ItemEnv) (fs : FsState) :
    buildFileUrls { cfg with startHour := h' } existing = buildFileUrls cfg existing
    ∧ runPipeline { cfg with startHour := h' } oracle fs = runPipeline cfg oracle fs :=
  ⟨rfl, rfl⟩

/-- C3: an enumerated item whose file name is in the captured index is never
dispatched (under any URL), every enumerated item whose name is not in the
index is dispatched, and in the concrete scenario with
`SITE_TYPE_2021-01-01T05-00.gif` pre-existing, exactly the other 22 items of
that day are dispatched. -/
theorem c3_filter_theorem (cfg : RunConfig) (idx : List String) :
    (∀ nm u : String, hasNameOpt (some idx) nm = true →
      (u, nm) ∉ buildFileUrls cfg (some idx))
    ∧ (∀ (dt : Date) (hour : Nat), dt ∈ enumDays cfg.startDate cfg.endDate →
        hour < 23 →
        hasNameOpt (some idx) (mkFileName cfg.site cfg.imageType dt hour) = false →
        (mkUrl cfg.site cfg.imageType dt hour,
          mkFileName cfg.site cfg.imageType dt hour) ∈ buildFileUrls cfg (some idx))
    ∧ ((buildFileUrls ⟨"SITE", "TYPE", ⟨2021, 1, 1⟩, ⟨2021, 1, 1⟩, 0, "dir"⟩
          (some ["SITE_TYPE_2021-01-01T05-00.gif"])).length = 22
      ∧ ∀ p ∈ buildFileUrls ⟨"SITE", "TYPE", ⟨2021, 1, 1⟩, ⟨2021, 1, 1⟩, 0, "dir"⟩
          (some ["SITE_TYPE_2021-01-01T05-00.gif"]),
          p.2 ≠ "SITE_TYPE_2021-01-01T05-00.gif") := by
  refine ⟨?_, ?_, by decide, by decide⟩
  · intro nm u hin hmem
    rcases mem_buildFileUrls_elim hmem with ⟨dt, hour, _, _, hp, hskip⟩
    have hnm : nm = mkFileName cfg.site cfg.imageType dt hour := congrArg Prod.snd hp
    rw [← hnm, hin] at hskip
    exact Bool.noConfusion hskip
  · intro dt hour hd hh hskip
    exact mem_buildFileUrls_of hd hh hskip

/-- Witness for C3: in the pre-populated scenario, the 05:00 item is not
dispatched and the 06:00 item is. -/
theorem c3_filter_witness :
    ("u", "SITE_TYPE_2021-01-01T05-00.gif")
        ∉ buildFileUrls ⟨"SITE", "TYPE", ⟨2021, 1, 1⟩, ⟨2021, 1, 1⟩, 0, "dir"⟩
          (some ["SITE_TYPE_2021-01-01T05-00.gif"])
    ∧ (mkUrl "SITE" "TYPE" ⟨2021, 1, 1⟩ 6, mkFileName "SITE" "TYPE" ⟨2021, 1, 1⟩ 6)
        ∈ buildFileUrls ⟨"SITE", "TYPE", ⟨2021, 1, 1⟩, ⟨2021, 1, 1⟩, 0, "dir"⟩
          (some ["SITE_TYPE_2021-01-01T05-00.gif"]) :=
  ⟨( c3_filter_theorem ⟨"SITE", "TYPE", ⟨2021, 1, 1⟩, ⟨2021, 1, 1⟩, 0, "dir"⟩
      ["SITE_TYPE_2021-01-01T05-00.gif"]).1
      "SITE_TYPE_2021-01-01T05-00.gif" "u" (by decide),
   ( c3_filter_theorem ⟨"SITE", "TYPE", ⟨2021, 1, 1⟩, ⟨2021, 1, 1⟩, 0, "dir"⟩
      ["SITE_TYPE_2021-01-01T05-00.gif"]).2.1
      ⟨2021, 1, 1⟩ 6 (by decide) (by decide) (by decide)⟩

/-- C6: the built work item's file name is
`{site}_{imagetype}_{YYYY}-{MM}-{DD}T{HH}-00.gif` with zero-padded month,
day and hour, and its URL is the fixed base URL with query parameters
`time` (compact `YYYYMMDDHH00`), `site` and `image_type`; the spec-side
zero-padded fields are `specPad2`/`specYear4`. -/
theorem c6_format_theorem (site imagetype : String) (dt : Date) (hour : Nat)
    (hy : dt.y ≤ 9999) :
    mkFileName site imagetype dt hour
      = site ++ "_" ++ imagetype ++ "_" ++ specYear4 dt.y ++ "-" ++ specPad2 dt.m
        ++ "-" ++ specPad2 dt.d ++ "T" ++ specPad2 hour ++ "-00.gif"
    ∧ mkUrl site imagetype dt hour
      = IMAGE_BASE_URL ++ "?time=" ++ specYear4 dt.y ++ specPad2 dt.m
        ++ specPad2 dt.d ++ specPad2 hour ++ "00" ++ "&site=" ++ site
        ++ "&image_type=" ++ imagetype := by
  unfold mkFileName mkUrl
  simp only [fmtY_eq_specYear4 hy, fmt02_eq_specPad2]
  exact ⟨trivial, trivial⟩

/-- Witness for C6 at a concrete timestamp. -/
theorem c6_format_witness :
    (⟨2021, 1, 1⟩ : Date).y ≤ 9999
    ∧ (mkFileName "SITE" "TYPE" ⟨2021, 1, 1⟩ 5
        = "SITE" ++ "_" ++ "TYPE" ++ "_" ++ specYear4 2021 ++ "-" ++ specPad2 1
          ++ "-" ++ specPad2 1 ++ "T" ++ specPad2 5 ++ "-00.gif"
      ∧ mkUrl "SITE" "TYPE" ⟨2021, 1, 1⟩ 5
        = IMAGE_BASE_URL ++ "?time=" ++ specYear4 2021 ++ specPad2 1
          ++ specPad2 1 ++ specPad2 5 ++ "00" ++ "&site=" ++ "SITE"
          ++ "&image_type=" ++ "TYPE") :=
  ⟨by decide, c6_format_theorem "SITE" "TYPE" ⟨2021, 1, 1⟩ 5 (by decide)⟩

/-- C7: the work-item builder is deterministic (it is a pure function of its
inputs), and for a fixed site and image type two distinct valid timestamps
never produce the same local file name. -/
theorem c7_injective_theorem (site imagetype : String) (d1 d2 : Date)
    (h1 h2 : Nat) (hv1 : d1.valid) (hv2 : d2.valid)
    (hh1 : h1 < 23) (hh2 : h2 < 23) :
    (∀ (s i : String) (d : Date) (h : Nat),
      s = site → i = imagetype → d = d1 → h = h1 →
      (mkUrl s i d h, mkFileName s i d h)
        = (mkUrl site imagetype d1 h1, mkFileName site imagetype d1 h1))
    ∧ ((d1, h1) ≠ (d2, h2) →
        mkFileName site imagetype d1 h1 ≠ mkFileName site imagetype d2 h2) := by
  constructor
  · rintro s i d h rfl rfl rfl rfl
    rfl
  · intro hne heq
    apply hne
    have hm1 : d1.m < 100 := by obtain ⟨_, h, _, _⟩ := hv1; omega
    have hm2 : d2.m < 100 := by obtain ⟨_, h, _, _⟩ := hv2; omega
    have hd1 : d1.d < 100 := by
      obtain ⟨_, _, _, h⟩ := hv1
      have := daysInMonth_le d1.y d1.m
      omega
    have hd2 : d2.d < 100 := by
      obtain ⟨_, _, _, h⟩ := hv2
      have := daysInMonth_le d2.y d2.m
      omega
    have hh1' : h1 < 100 := by omega
    have hh2' : h2 < 100 := by omega
    have hdata := congrArg String.data heq
    rw [mkFileName_data, mkFileName_data] at hdata
    have step1 := List.append_cancel_left hdata
    injection step1 with _ step2
    have step3 := List.append_cancel_left step2
    injection step3 with _ step4
    have hlenR :
        ('-' :: ((fmt02 d1.m).data ++ '-' :: ((fmt02 d1.d).data
          ++ 'T' :: ((fmt02 h1).data ++ ['-', '0', '0', '.', 'g', 'i', 'f'])))).length
        = ('-' :: ((fmt02 d2.m).data ++ '-' :: ((fmt02 d2.d).data
          ++ 'T' :: ((fmt02 h2).data ++ ['-', '0', '0', '.', 'g', 'i', 'f'])))).length := by
      simp [fmt02_length hm1, fmt02_length hm2, fmt02_length hd1,
        fmt02_length hd2, fmt02_length hh1', fmt02_length hh2']
    obtain ⟨hyeq, hR⟩ := List.append_inj' step4 hlenR
    have hyy := fmtY_inj hyeq
    injection hR with _ hR1
    obtain ⟨hmeq, hR2⟩ :=
      List.append_inj hR1 (by rw [fmt02_length hm1, fmt02_length hm2])
    have hmm := fmt02_inj hmeq
    injection hR2 with _ hR3
    obtain ⟨hdeq, hR4⟩ :=
      List.append_inj hR3 (by rw [fmt02_length hd1, fmt02_length hd2])
    have hdd := fmt02_inj hdeq
    injection hR4 with _ hR5
    obtain ⟨hheq, _⟩ :=
      List.append_inj hR5 (by rw [fmt02_length hh1', fmt02_length hh2'])
    have hhh := fmt02_inj hheq
    have hdate : d1 = d2 := by
      cases d1
      cases d2
      dsimp only at hyy hmm hdd
      simp only [Date.mk.injEq]
      exact ⟨hyy, hmm, hdd⟩
    rw [hdate, hhh]

/-- Witness for C7: two distinct hours of the same day give different
names. -/
theorem c7_injective_witness :
    Date.valid ⟨2021, 1, 1⟩ ∧ (5 : Nat) < 23 ∧ (6 : Nat) < 23
      ∧ mkFileName "SITE" "TYPE" ⟨2021, 1, 1⟩ 5
          ≠ mkFileName "SITE" "TYPE" ⟨2021, 1, 1⟩ 6 :=
  ⟨by decide, by decide, by decide,
    ( c7_injective_theorem "SITE" "TYPE" ⟨2021, 1, 1⟩ ⟨2021, 1, 1⟩ 5 6
      (by decide) (by decide) (by decide) (by decide)).2 (by decide)⟩

/-- Conclusion of claim C4 (amended): an item that returns exposes only a
binary `Result<(), ()>` — `Ok` exactly when the spec classification is
`Saved`, `Err` for every returned failure kind. -/
def C4Prop (env : ItemEnv) (n : String) (fs : FsState) : Prop :=
  ((process_file env n fs).outcome = ProcOutcome.returned (Except.ok ())
    ↔ specClassify env = FetchResult.Saved)
  ∧ ∀ r, (process_file env n fs).outcome = ProcOutcome.returned r →
      r = (if specClassify env = FetchResult.Saved
           then Except.ok () else Except.error ())

/-- C4 (amended): per item, the spec's five-valued outcome taxonomy is
collapsed by the code into a binary `Result<(), ()>`; the exposed value is
`Ok ()` iff the item is `Saved` and `Err ()` for every other returned
outcome, so distinct failure kinds are indistinguishable to the caller. -/
theorem c4_fetchresult_theorem (env : ItemEnv) (n : String) (fs : FsState)
    (hdir : env.createDirOk = true) : C4Prop env n fs := by
  rcases env with ⟨call, cdo, cfo, wo⟩
  dsimp only at hdir
  subst hdir
  unfold C4Prop process_file specClassify
  cases call with
  | status code => simp
  | failure => simp
  | success ro body =>
    cases ro with
    | false => simp
    | true =>
      dsimp only
      by_cases hb : body.isEmpty
      · simp [hb]
      · by_cases hcf : cfo
        · by_cases hwo : wo
          · simp [hb, hcf, hwo]
          · simp [hb, hcf, hwo]
        · simp [hb, hcf]

/-- Witness for C4's amended theorem at an HTTP-500 item. -/
theorem c4_fetchresult_witness :
    (⟨HttpCall.status 500, true, true, true⟩ : ItemEnv).createDirOk = true
      ∧ C4Prop ⟨HttpCall.status 500, true, true, true⟩ "f" ⟨true, []⟩ :=
  ⟨rfl, c4_fetchresult_theorem ⟨HttpCall.status 500, true, true, true⟩ "f"
    ⟨true, []⟩ rfl⟩

/-- Counterexample to C4 as stated: an `HttpError(500)` item and an
`EmptyBody` item — distinct spec outcome kinds — expose byte-identical
results (`Err(())`), so the caller cannot distinguish the outcome kinds;
moreover an item whose body read fails produces no `FetchResult` at all
(it panics). -/
theorem c4_fetchresult_counterexample :
    specClassify ⟨HttpCall.status 500, true, true, true⟩
        ≠ specClassify ⟨HttpCall.success true [], true, true, true⟩
    ∧ (process_file ⟨HttpCall.status 500, true, true, true⟩ "f" ⟨true, []⟩).outcome
        = (process_file ⟨HttpCall.success true [], true, true, true⟩ "f" ⟨true, []⟩).outcome
    ∧ (process_file ⟨HttpCall.success false [7], true, true, true⟩ "f" ⟨true, []⟩).outcome
        = ProcOutcome.panicked := by
  exact ⟨by decide, by decide, by decide⟩

/-- Conclusion of claim C5 (amended): transport failure at call time, HTTP
status errors, empty bodies and file-create failures are local (the item
returns `Err`, with the logging the code actually does — empty body is not
logged), while a body-read failure or a `write_all` failure panics; a
returned item lets the runner continue with its siblings. -/
def C5Prop (env : ItemEnv) (n : String) (fs : FsState) : Prop :=
  ((env.call = HttpCall.failure →
      process_file env n fs
        = ⟨fs, ProcOutcome.returned (Except.error ()), [LogEvent.transport]⟩)
  ∧ (∀ c, env.call = HttpCall.status c →
      process_file env n fs
        = ⟨fs, ProcOutcome.returned (Except.error ()), [LogEvent.httpStatus c]⟩)
  ∧ (env.call = HttpCall.success true [] →
      process_file env n fs
        = ⟨⟨true, fs.files⟩, ProcOutcome.returned (Except.error ()), []⟩)
  ∧ (∀ b, env.call = HttpCall.success true b → b ≠ [] →
      env.createFileOk = false →
      process_file env n fs
        = ⟨⟨true, fs.files⟩, ProcOutcome.returned (Except.error ()),
           [LogEvent.createFileError]⟩)
  ∧ (∀ b, env.call = HttpCall.success false b →
      (process_file env n fs).outcome = ProcOutcome.panicked)
  ∧ (∀ b, env.call = HttpCall.success true b → b ≠ [] →
      env.createFileOk = true → env.writeOk = false →
      (process_file env n fs).outcome = ProcOutcome.panicked))
  ∧ (∀ (oracle : String → ItemEnv) (u nm : String)
      (rest : List (String × String)) (fs' : FsState) (r : Except Unit Unit),
      (process_file (oracle u) nm fs').outcome = ProcOutcome.returned r →
      runItems oracle ((u, nm) :: rest) fs'
        = ⟨(runItems oracle rest (process_file (oracle u) nm fs').fs).fs,
           r :: (runItems oracle rest (process_file (oracle u) nm fs').fs).results,
           1 + (runItems oracle rest (process_file (oracle u) nm fs').fs).incs,
           (runItems oracle rest (process_file (oracle u) nm fs').fs).completed⟩)

/-- C5 (amended): the four named failure kinds are local exactly when the
code returns — transport/status/create-failure are logged and recorded,
empty body is recorded but not logged — whereas an I/O failure mid-transfer
or a `write_all` failure panics and aborts the run. -/
theorem c5_locality_theorem (env : ItemEnv) (n : String) (fs : FsState)
    (hdir : env.createDirOk = true) : C5Prop env n fs := by
  constructor
  · refine ⟨?_, ?_, ?_, ?_, ?_, ?_⟩
    · intro hc
      unfold process_file
      rw [hc]
    · intro c hc
      unfold process_file
      rw [hc]
    · intro hc
      unfold process_file
      rw [hc]
      simp [hdir]
    · intro b hc hb hcf
      have hbe : b.isEmpty = false := by
        cases b
        · exact absurd rfl hb
        · rfl
      unfold process_file
      rw [hc]
      simp [hdir, hbe, hcf]
    · intro b hc
      unfold process_file
      rw [hc]
      simp [hdir]
    · intro b hc hb hcf hwo
      have hbe : b.isEmpty = false := by
        cases b
        · exact absurd rfl hb
        · rfl
      unfold process_file
      rw [hc]
      simp [hdir, hbe, hcf, hwo]
  · intro oracle u nm rest fs' r hr
    conv_lhs => rw [runItems]
    dsimp only
    rw [hr]

/-- Witness for C5's amended theorem at a transport-failure item. -/
theorem c5_locality_witness :
    (⟨HttpCall.failure, true, true, true⟩ : ItemEnv).createDirOk = true
      ∧ C5Prop ⟨HttpCall.failure, true, true, true⟩ "n" ⟨true, []⟩ :=
  ⟨rfl, c5_locality_theorem ⟨HttpCall.failure, true, true, true⟩ "n"
    ⟨true, []⟩ rfl⟩

/-- Counterexample to C5 as stated: an item whose transport-level failure
happens mid-transfer (the body read fails) does not get a recorded result —
`process_file` panics and the run aborts with no result for the item. -/
theorem c5_locality_counterexample :
    (runItems (fun _ => ⟨HttpCall.success false [7], true, true, true⟩)
        [("u", "n")] ⟨true, []⟩).completed = false
    ∧ (runItems (fun _ => ⟨HttpCall.success false [7], true, true, true⟩)
        [("u", "n")] ⟨true, []⟩).results = []
    ∧ (process_file ⟨HttpCall.success false [7], true, true, true⟩ "n"
        ⟨true, []⟩).outcome = ProcOutcome.panicked := by
  exact ⟨by decide, by decide, by decide⟩

/-- C10: whenever the HTTP GET succeeds (and the directory-create call does
not itself fail), `process_file` ensures the destination directory exists
before examining the body, so even an empty-body item leaves the directory
created while writing no file. -/
theorem c10_dircreate_theorem (env : ItemEnv) (n : String) (fs : FsState)
    (hdir : env.createDirOk = true) (ro : Bool) (body : List Nat)
    (hcall : env.call = HttpCall.success ro body) :
    (process_file env n fs).fs.dirExists = true
    ∧ (ro = true → body = [] →
        process_file env n fs
          = ⟨⟨true, fs.files⟩, ProcOutcome.returned (Except.error ()), []⟩) := by
  constructor
  · unfold process_file
    rw [hcall]
    cases ro with
    | false => simp [hdir]
    | true =>
      by_cases hb : body.isEmpty
      · simp [hdir, hb]
      · by_cases hcf : env.createFileOk
        · by_cases hwo : env.writeOk
          · simp [hdir, hb, hcf, hwo]
          · simp [hdir, hb, hcf, hwo]
        · simp [hdir, hb, hcf]
  · intro hro hbody
    subst hro
    subst hbody
    unfold process_file
    rw [hcall]
    simp [hdir]

/-- Witness for C10: an empty-body item against an absent directory creates
the directory, writes nothing, and returns `Err`. -/
theorem c10_dircreate_witness :
    (⟨HttpCall.success true [], true, true, true⟩ : ItemEnv).createDirOk = true
    ∧ (⟨HttpCall.success true [], true, true, true⟩ : ItemEnv).call
        = HttpCall.success true []
    ∧ ((process_file ⟨HttpCall.success true [], true, true, true⟩ "n"
          ⟨false, ["x"]⟩).fs.dirExists = true
      ∧ (true = true → ([] : List Nat) = [] →
          process_file ⟨HttpCall.success true [], true, true, true⟩ "n"
            ⟨false, ["x"]⟩
            = ⟨⟨true, ["x"]⟩, ProcOutcome.returned (Except.error ()), []⟩)) :=
  ⟨rfl, rfl,
    c10_dircreate_theorem ⟨HttpCall.success true [], true, true, true⟩ "n"
      ⟨false, ["x"]⟩ rfl true [] rfl⟩

/-- Conclusion of claim C8 (amended): when no dispatched item panics, the
run completes with exactly one result and exactly one progress increment per
dispatched item; unconditionally, a completed run has exactly one result and
one increment per dispatched item; and an item that panics still receives
its single progress increment but produces no result, and the run aborts
without attempting the remaining items. -/
def C8Prop (oracle : String → ItemEnv) (items : List (String × String))
    (fs : FsState) : Prop :=
  ((runItems oracle items fs).completed = true
    ∧ (runItems oracle items fs).results.length = items.length
    ∧ (runItems oracle items fs).incs = items.length)
  ∧ (∀ (oracle2 : String → ItemEnv) (items2 : List (String × String))
      (fs2 : FsState),
      (runItems oracle2 items2 fs2).completed = true →
      (runItems oracle2 items2 fs2).results.length = items2.length
        ∧ (runItems oracle2 items2 fs2).incs = items2.length)
  ∧ (∀ (oracle3 : String → ItemEnv) (u nm : String)
      (rest : List (String × String)) (fs3 : FsState),
      (process_file (oracle3 u) nm fs3).outcome = ProcOutcome.panicked →
      runItems oracle3 ((u, nm) :: rest) fs3
        = ⟨(process_file (oracle3 u) nm fs3).fs, [], 1, false⟩)

/-- C8 (amended): every dispatched item that returns produces exactly one
result and one progress increment, and a run with no panicking item
completes with exactly one of each per dispatched item; a completed run
always has one result and one increment per item; a panicking item gets its
one increment but no result, and the remaining items are never attempted. -/
theorem c8_progress_theorem (oracle : String → ItemEnv)
    (items : List (String × String)) (fs : FsState)
    (hnp : ∀ p ∈ items, NonPanicking (oracle p.1)) : C8Prop oracle items fs := by
  refine ⟨runItems_nonpanic oracle items fs hnp,
    fun oracle2 items2 fs2 h => runItems_completed_lengths oracle2 items2 fs2 h,
    ?_⟩
  intro oracle3 u nm rest fs3 hpanic
  conv_lhs => rw [runItems]
  dsimp only
  rw [hpanic]

/-- Witness for C8's amended theorem: a single HTTP-500 item yields one
result and one increment. -/
theorem c8_progress_witness :
    (∀ p ∈ ([("u", "n")] : List (String × String)),
      NonPanicking ((fun _ => (⟨HttpCall.status 500, true, true, true⟩ : ItemEnv)) p.1))
    ∧ C8Prop (fun _ => ⟨HttpCall.status 500, true, true, true⟩)
        [("u", "n")] ⟨true, []⟩ :=
  ⟨fun _ _ => ⟨rfl, fun _ _ h => HttpCall.noConfusion h⟩,
   c8_progress_theorem (fun _ => ⟨HttpCall.status 500, true, true, true⟩)
     [("u", "n")] ⟨true, []⟩
     (fun _ _ => ⟨rfl, fun _ _ h => HttpCall.noConfusion h⟩)⟩

/-- Counterexample to C8 as stated: a run of two dispatched items whose
first item's body read fails produces no `FetchResult` at all (not one per
item), performs only one progress increment for two dispatched items, and
aborts instead of completing after every item produced its result. -/
theorem c8_progress_counterexample :
    (runItems (fun _ => ⟨HttpCall.success false [], true, true, true⟩)
        [("u1", "n1"), ("u2", "n2")] ⟨true, []⟩).results.length = 0
    ∧ ([("u1", "n1"), ("u2", "n2")] : List (String × String)).length = 2
    ∧ (runItems (fun _ => ⟨HttpCall.success false [], true, true, true⟩)
        [("u1", "n1"), ("u2", "n2")] ⟨true, []⟩).incs = 1
    ∧ (runItems (fun _ => ⟨HttpCall.success false [], true, true, true⟩)
        [("u1", "n1"), ("u2", "n2")] ⟨true, []⟩).completed = false := by
  exact ⟨by decide, by decide, by decide, by decide⟩

theorem captureExisting_dir (fs0 : FsState) :
    (captureExisting fs0).1.dirExists = true := by
  unfold captureExisting
  split
  next h => exact h
  next h => rfl

theorem captureExisting_files (fs0 : FsState) :
    (captureExisting fs0).1.files = fs0.files := by
  unfold captureExisting
  split <;> rfl

theorem captureExisting_idx (fs0 : FsState) :
    (captureExisting fs0).2 = some fs0.files ∨ (captureExisting fs0).2 = none := by
  unfold captureExisting
  split
  · exact Or.inl rfl
  · exact Or.inr rfl

/-- C2 (amended): if the remote serves every requested item successfully
(every dispatched item of the first run ends `Saved`), then a second run of
the pipeline against the resulting directory dispatches zero fetches,
produces no results, and leaves the file set unchanged. -/
theorem c2_idempotence_theorem (cfg : RunConfig) (oracle : String → ItemEnv)
    (fs0 : FsState) (hsaved : ∀ u, SavedEnv (oracle u)) :
    (runPipeline cfg oracle (runPipeline cfg oracle fs0).fs).dispatched = []
    ∧ (runPipeline cfg oracle (runPipeline cfg oracle fs0).fs).results = []
    ∧ (runPipeline cfg oracle (runPipeline cfg oracle fs0).fs).fs
        = (runPipeline cfg oracle fs0).fs := by
  have hcovers :
      ∀ dt ∈ enumDays cfg.startDate cfg.endDate, ∀ hour < 23,
        mkFileName cfg.site cfg.imageType dt hour
          ∈ (runPipeline cfg oracle fs0).fs.files := by
    intro dt hdt hour hh
    show mkFileName cfg.site cfg.imageType dt hour
      ∈ (runItems oracle (buildFileUrls cfg (captureExisting fs0).2)
          (captureExisting fs0).1).fs.files
    cases hskip : hasNameOpt (captureExisting fs0).2
        (mkFileName cfg.site cfg.imageType dt hour) with
    | true =>
      rcases captureExisting_idx fs0 with hidx | hidx
      · rw [hidx] at hskip
        have hmem0 : mkFileName cfg.site cfg.imageType dt hour ∈ fs0.files :=
          (hasName_iff fs0.files _).mp hskip
        apply runItems_files_mono
        rw [captureExisting_files fs0]
        exact hmem0
      · rw [hidx] at hskip
        exact Bool.noConfusion hskip
    | false =>
      have hmem := mem_buildFileUrls_of hdt hh hskip
      exact ((runItems_saved_covers oracle
        (buildFileUrls cfg (captureExisting fs0).2) (captureExisting fs0).1
        (fun p _ => hsaved p.1)).1 _ hmem)
  have hdir1 : (runPipeline cfg oracle fs0).fs.dirExists = true := by
    show (runItems oracle (buildFileUrls cfg (captureExisting fs0).2)
      (captureExisting fs0).1).fs.dirExists = true
    exact runItems_dir_mono oracle _ _ (captureExisting_dir fs0)
  have hcap2 : captureExisting (runPipeline cfg oracle fs0).fs
      = ((runPipeline cfg oracle fs0).fs,
         some (runPipeline cfg oracle fs0).fs.files) := by
    unfold captureExisting
    rw [if_pos hdir1]
  have hitems2 :
      buildFileUrls cfg (captureExisting (runPipeline cfg oracle fs0).fs).2 = [] := by
    rw [hcap2]
    apply buildFileUrls_eq_nil
    intro dt hdt hour hh
    exact (hasName_iff _ _).mpr (hcovers dt hdt hour hh)
  refine ⟨hitems2, ?_, ?_⟩
  · show (runItems oracle
      (buildFileUrls cfg (captureExisting (runPipeline cfg oracle fs0).fs).2)
      (captureExisting (runPipeline cfg oracle fs0).fs).1).results = []
    rw [hitems2]
    rfl
  · show (runItems oracle
      (buildFileUrls cfg (captureExisting (runPipeline cfg oracle fs0).fs).2)
      (captureExisting (runPipeline cfg oracle fs0).fs).1).fs
      = (runPipeline cfg oracle fs0).fs
    rw [hitems2]
    exact congrArg Prod.fst hcap2

/-- Witness for C2's amended theorem on a one-day run from an empty state,
with a remote that always serves one byte. -/
theorem c2_idempotence_witness :
    (∀ u : String, SavedEnv ((fun _ : String =>
        (⟨HttpCall.success true [7], true, true, true⟩ : ItemEnv)) u))
    ∧ ((runPipeline ⟨"S", "T", ⟨2021, 1, 1⟩, ⟨2021, 1, 1⟩, 0, "dir"⟩
          (fun _ => ⟨HttpCall.success true [7], true, true, true⟩)
          ((runPipeline ⟨"S", "T", ⟨2021, 1, 1⟩, ⟨2021, 1, 1⟩, 0, "dir"⟩
            (fun _ => ⟨HttpCall.success true [7], true, true, true⟩)
            ⟨false, []⟩).fs)).dispatched = []
      ∧ (runPipeline ⟨"S", "T", ⟨2021, 1, 1⟩, ⟨2021, 1, 1⟩, 0, "dir"⟩
          (fun _ => ⟨HttpCall.success true [7], true, true, true⟩)
          ((runPipeline ⟨"S", "T", ⟨2021, 1, 1⟩, ⟨2021, 1, 1⟩, 0, "dir"⟩
            (fun _ => ⟨HttpCall.success true [7], true, true, true⟩)
            ⟨false, []⟩).fs)).results = []
      ∧ (runPipeline ⟨"S", "T", ⟨2021, 1, 1⟩, ⟨2021, 1, 1⟩, 0, "dir"⟩
          (fun _ => ⟨HttpCall.success true [7], true, true, true⟩)
          ((runPipeline ⟨"S", "T", ⟨2021, 1, 1⟩, ⟨2021, 1, 1⟩, 0, "dir"⟩
            (fun _ => ⟨HttpCall.success true [7], true, true, true⟩)
            ⟨false, []⟩).fs)).fs
        = (runPipeline ⟨"S", "T", ⟨2021, 1, 1⟩, ⟨2021, 1, 1⟩, 0, "dir"⟩
            (fun _ => ⟨HttpCall.success true [7], true, true, true⟩)
            ⟨false, []⟩).fs) :=
  ⟨fun _ => ⟨rfl, rfl, rfl, [7], rfl, by decide⟩,
   c2_idempotence_theorem ⟨"S", "T", ⟨2021, 1, 1⟩, ⟨2021, 1, 1⟩, 0, "dir"⟩
     (fun _ => ⟨HttpCall.success true [7], true, true, true⟩) ⟨false, []⟩
     (fun _ => ⟨rfl, rfl, rfl, [7], rfl, by decide⟩)⟩

/-- Counterexample to C2 as stated: with a remote that always returns an
empty body (no external change between the runs), the first run saves
nothing, so the second run dispatches all 23 items again instead of zero. -/
theorem c2_idempotence_counterexample :
    (runPipeline ⟨"S", "T", ⟨2021, 1, 1⟩, ⟨2021, 1, 1⟩, 0, "dir"⟩
        (fun _ => ⟨HttpCall.success true [], true, true, true⟩)
        ((runPipeline ⟨"S", "T", ⟨2021, 1, 1⟩, ⟨2021, 1, 1⟩, 0, "dir"⟩
          (fun _ => ⟨HttpCall.success true [], true, true, true⟩)
          ⟨false, []⟩).fs)).dispatched.length = 23
    ∧ (runPipeline ⟨"S", "T", ⟨2021, 1, 1⟩, ⟨2021, 1, 1⟩, 0, "dir"⟩
        (fun _ => ⟨HttpCall.success true [], true, true, true⟩)
        ((runPipeline ⟨"S", "T", ⟨2021, 1, 1⟩, ⟨2021, 1, 1⟩, 0, "dir"⟩
          (fun _ => ⟨HttpCall.success true [], true, true, true⟩)
          ⟨false, []⟩).fs)).dispatched ≠ [] := by
  exact ⟨by decide, by decide⟩
